import Mathlib

/-!
Verification of the volume-dashboard backend pipeline
(`src/backend/server.js`): the retry wrapper, the freshness cache,
the snapshot store and the per-exchange source adapters, shallowly
embedded as pure Lean functions.  Network effects are modelled by
oracles `Nat → FetchOutcome α` giving the outcome of each attempt,
and object state (caches, module-level variables, snapshot history)
is passed explicitly.  JS floating-point numbers are modelled as `Rat`
and epoch-millisecond clocks as `Int`.
-/

/-- Failure of one HTTP attempt: either a response with an HTTP status
code, or a status-less failure (timeout, connection error, or a thrown
`Error`, for which `error.response` is `undefined`). -/
inductive JsError where
  | http (status : Nat)
  | network
  | appError (msg : String)
deriving Repr, DecidableEq

/-- Outcome of one attempt of an outbound request. -/
inductive FetchOutcome (α : Type) where
  | success (v : α)
  | failure (e : JsError)
deriving Repr

instance {ε α : Type} [DecidableEq ε] [DecidableEq α] : DecidableEq (Except ε α) :=
  fun a b =>
    match a, b with
    | .ok x, .ok y => decidable_of_iff (x = y) (by simp)
    | .error x, .error y => decidable_of_iff (x = y) (by simp)
    | .ok _, .error _ => isFalse (by simp)
    | .error _, .ok _ => isFalse (by simp)

/-- The terminal-error classification of `fetchWithRetry`:
`status && status >= 400 && status < 500 && status !== 418 && status !== 429`.
Only a failure that carries an HTTP status can be terminal. -/
def isTerminalError : JsError → Bool
  | .http s => 400 ≤ s && s < 500 && s != 418 && s != 429
  | .network => false
  | .appError _ => false

/-- The body of the `for (let attempt = 0; attempt < maxRetries; attempt++)`
loop of `fetchWithRetry`.  The pair returned is the list of back-off delays
performed (in ms, in order) and the final outcome.  `fuel` is the remaining
iteration count `maxRetries - attempt`, so the recursion is structural; the
two `([], .error .network)` branches are the fall-through return of the JS
loop, reachable only when `maxRetries = 0` (callers always use 3), where JS
would return `undefined`. -/
def fetchRetryGo (o : Nat → FetchOutcome α) (maxRetries : Nat) :
    Nat → Nat → List Nat × Except JsError α
  | _, 0 => ([], .error .network)
  | attempt, fuel + 1 =>
    if attempt < maxRetries then
      let waits : List Nat := if 0 < attempt then [2 ^ attempt * 1000] else []
      match o attempt with
      | .success v => (waits, .ok v)
      | .failure e =>
        if isTerminalError e then (waits, .error e)
        else if attempt = maxRetries - 1 then (waits, .error e)
        else
          let rest := fetchRetryGo o maxRetries (attempt + 1) fuel
          (waits ++ rest.1, rest.2)
    else ([], .error .network)

/-- `fetchWithRetry(axiosInstance, url, maxRetries)`: run the attempt loop
from attempt 0 with `maxRetries` iterations of fuel. -/
def fetchWithRetry (o : Nat → FetchOutcome α) (maxRetries : Nat) :
    List Nat × Except JsError α :=
  fetchRetryGo o maxRetries 0 maxRetries

/-- Claim C1: with the default 3 attempts, a failure whose status is in
400-499 and is neither 418 nor 429 is thrown at once (no further attempt,
no further wait); every other failure is retried, with a 2000 ms wait before
the second attempt and a 4000 ms wait before the third and no wait before
the first; and when all three attempts fail the last error is surfaced. -/
theorem c1_fetchWithRetry_policy (α : Type) (o : Nat → FetchOutcome α) :
    fetchWithRetry o 3 =
      match o 0 with
      | .success v => ([], .ok v)
      | .failure e0 =>
        if isTerminalError e0 then ([], .error e0)
        else
          match o 1 with
          | .success v => ([2000], .ok v)
          | .failure e1 =>
            if isTerminalError e1 then ([2000], .error e1)
            else
              match o 2 with
              | .success v => ([2000, 4000], .ok v)
              | .failure e2 => ([2000, 4000], .error e2) := by
  have h0 : (0:Nat) < 3 := by decide
  cases h₀ : o 0 with
  | success v =>
    simp [fetchWithRetry, fetchRetryGo, h₀]
  | failure e0 =>
    by_cases ht0 : isTerminalError e0 = true
    · simp [fetchWithRetry, fetchRetryGo, h₀, ht0]
    · cases h₁ : o 1 with
      | success v =>
        simp [fetchWithRetry, fetchRetryGo, h₀, h₁, ht0]
      | failure e1 =>
        by_cases ht1 : isTerminalError e1 = true
        · simp [fetchWithRetry, fetchRetryGo, h₀, h₁, ht0, ht1]
        · cases h₂ : o 2 with
          | success v =>
            simp [fetchWithRetry, fetchRetryGo, h₀, h₁, h₂, ht0, ht1]
          | failure e2 =>
            simp [fetchWithRetry, fetchRetryGo, h₀, h₁, h₂, ht0, ht1]

/-- JS `s.endsWith(suffix)`, on the character data of the strings. -/
def jsEndsWith (s suffix : String) : Bool := suffix.data.isSuffixOf s.data

/-- JS `s.startsWith(pre)`, on the character data of the strings. -/
def jsStartsWith (s pre : String) : Bool := pre.data.isPrefixOf s.data

/-- JS `s.toUpperCase()` (the symbols involved are ASCII). -/
def jsToUpper (s : String) : String := ⟨s.data.map Char.toUpper⟩

/-- Replace the first occurrence of `pat` (JS `String.prototype.replace`
with a string pattern replaces only the first match). -/
def replaceFirstAux (pat rep : List Char) : List Char → List Char
  | [] => []
  | c :: cs =>
    if pat.isPrefixOf (c :: cs) then rep ++ (c :: cs).drop pat.length
    else c :: replaceFirstAux pat rep cs

/-- JS `s.replace(pat, rep)` for a string pattern. -/
def jsReplace (s pat rep : String) : String := ⟨replaceFirstAux pat.data rep.data s.data⟩

/-- The common normalized ticker record served by every adapter
(`displayName` is set only by the Upbit adapter). -/
structure TickerRecord where
  symbol : String
  displayName : Option String
  lastPrice : Rat
  priceChangePercent : Rat
  quoteVolume : Rat
deriving Repr, DecidableEq

/-- The comparator `(a, b) => b.quoteVolume - a.quoteVolume` as the order
used by a stable sort: `a` may precede `b` iff `b.quoteVolume <= a.quoteVolume`. -/
def volDesc (a b : TickerRecord) : Prop := b.quoteVolume ≤ a.quoteVolume

instance : DecidableRel volDesc :=
  fun a b => inferInstanceAs (Decidable (b.quoteVolume ≤ a.quoteVolume))

instance : IsTotal TickerRecord volDesc :=
  ⟨fun a b => le_total b.quoteVolume a.quoteVolume⟩

instance : IsTrans TickerRecord volDesc :=
  ⟨fun _ _ _ hab hbc => le_trans hbc hab⟩

/-- `.sort((a, b) => b.quoteVolume - a.quoteVolume).slice(0, 100)`:
JS `Array.prototype.sort` is stable, so any stable sort models it;
then truncate to the top 100. -/
def rankTop100 (l : List TickerRecord) : List TickerRecord :=
  (List.insertionSort volDesc l).take 100

/-- One entry of the Binance `/fapi/v1/ticker/24hr` response; the numeric
fields arrive as well-formed decimal strings and are `parseFloat`ed. -/
structure BinanceRawTicker where
  symbol : String
  lastPrice : Rat
  priceChangePercent : Rat
  quoteVolume : Rat
deriving Repr, DecidableEq

/-- The Binance futures ticker filter: symbol must end in `USDT`, and when
an active-symbol set is available (non-null) the symbol must belong to it
(a JS `Set` is truthy even when empty, so only `null` disables the check). -/
def binanceFilter (active : Option (List String)) (t : BinanceRawTicker) : Bool :=
  jsEndsWith t.symbol "USDT" &&
    match active with
    | some l => l.contains t.symbol
    | none => true

/-- Field mapping of the Binance futures (and Binance Alpha) adapters. -/
def convBinance (t : BinanceRawTicker) : TickerRecord :=
  { symbol := t.symbol
    displayName := none
    lastPrice := t.lastPrice
    priceChangePercent := t.priceChangePercent
    quoteVolume := t.quoteVolume }

/-- The pure record pipeline of `fetchBinanceFuturesTop100`:
filter, normalize, sort descending by volume, truncate. -/
def binanceFuturesRecords (active : Option (List String))
    (ts : List BinanceRawTicker) : List TickerRecord :=
  rankTop100 ((ts.filter (binanceFilter active)).map convBinance)

/-- One entry of the Bitget spot tickers response.  The fields are numeric
strings; `none` models an absent field, for which `x || fallback` falls
through (a nonempty numeric string is always truthy). -/
structure BitgetRawTicker where
  symbol : String
  lastPr : Option Rat
  change24h : Option Rat
  usdtVolume : Option Rat
  quoteVolume : Option Rat
deriving Repr, DecidableEq

/-- Field mapping of the Bitget spot adapter. -/
def convBitget (t : BitgetRawTicker) : TickerRecord :=
  { symbol := t.symbol
    displayName := none
    lastPrice := t.lastPr.getD 0
    priceChangePercent := t.change24h.getD 0 * 100
    quoteVolume := t.usdtVolume.getD (t.quoteVolume.getD 0) }

/-- The pure record pipeline of `fetchBitgetSpotTop100`. -/
def bitgetRecords (ts : List BitgetRawTicker) : List TickerRecord :=
  rankTop100 ((ts.filter (fun t => jsEndsWith t.symbol "USDT")).map convBitget)

/-- `alphaTokens.map(t => (t.symbol || '').toUpperCase() + 'USDT')`; an
absent token symbol is modelled by the empty string. -/
def alphaSymbolSet (tokens : List String) : List String :=
  tokens.map (fun s => jsToUpper s ++ "USDT")

/-- The pure record pipeline of `fetchBinanceAlphaTop100`: keep the ticker
symbols belonging to the alpha symbol set, then normalize, sort, truncate. -/
def alphaRecords (tokens : List String) (ts : List BinanceRawTicker) :
    List TickerRecord :=
  rankTop100 ((ts.filter (fun t => (alphaSymbolSet tokens).contains t.symbol)).map convBinance)

/-- One entry of the Upbit `/v1/ticker` response.  The numeric fields of an
entry parse to their value, with 0 for an absent field (`parseFloat(x || 0)`). -/
structure UpbitRawTicker where
  market : String
  trade_price : Rat
  acc_trade_price_24h : Rat
  signed_change_rate : Rat
deriving Repr, DecidableEq

/-- The KRW to USD rate: `1 / trade_price` of the same-batch `KRW-USDT`
ticker when that ticker is present with a truthy (nonzero) trade price,
else the hardcoded fallback `1 / 1450`. -/
def upbitRate (ts : List UpbitRawTicker) : Rat :=
  match ts.find? (fun t => t.market == "KRW-USDT") with
  | some t => if t.trade_price = 0 then 1 / 1450 else 1 / t.trade_price
  | none => 1 / 1450

/-- Field mapping of the Upbit spot adapter: `market.replace('KRW-', '')`
derives the base asset, prices and volumes are multiplied by the rate. -/
def upbitConv (rate : Rat) (t : UpbitRawTicker) : TickerRecord :=
  { symbol := jsReplace t.market "KRW-" "" ++ "USDT"
    displayName := some (jsReplace t.market "KRW-" "")
    lastPrice := t.trade_price * rate
    priceChangePercent := t.signed_change_rate * 100
    quoteVolume := t.acc_trade_price_24h * rate }

/-- The pure record pipeline of `fetchUpbitSpotTop100`: drop the conversion
ticker itself, convert every KRW amount with the derived rate, sort, truncate. -/
def upbitRecords (ts : List UpbitRawTicker) : List TickerRecord :=
  rankTop100 ((ts.filter (fun t => t.market != "KRW-USDT")).map (upbitConv (upbitRate ts)))

/-- Records sorted non-increasing by `quoteVolume`. -/
def sortedByVolume (l : List TickerRecord) : Prop :=
  l.Pairwise (fun a b => b.quoteVolume ≤ a.quoteVolume)

lemma rankTop100_length_le (l : List TickerRecord) : (rankTop100 l).length ≤ 100 := by
  simp [rankTop100]

lemma rankTop100_sorted (l : List TickerRecord) : sortedByVolume (rankTop100 l) :=
  (List.sorted_insertionSort volDesc l).sublist (List.take_sublist _ _)

lemma rankTop100_mem {a : TickerRecord} {l : List TickerRecord}
    (h : a ∈ rankTop100 l) : a ∈ l :=
  (List.mem_insertionSort volDesc).1 (List.mem_of_mem_take h)

/-- Claim C2: every adapter returns at most 100 records, sorted
non-increasing by `quoteVolume`, and every returned record passed the
adapter's own quote-currency filter: `endsWith('USDT')` for Binance
futures and Bitget spot, membership in the alpha symbol set for Binance
Alpha, and for Upbit every record is the conversion of a ticker other
than the `KRW-USDT` conversion ticker itself. -/
theorem c2_adapter_records_ranked :
    (∀ (active : Option (List String)) (ts : List BinanceRawTicker),
      (binanceFuturesRecords active ts).length ≤ 100 ∧
      sortedByVolume (binanceFuturesRecords active ts) ∧
      ∀ r ∈ binanceFuturesRecords active ts, jsEndsWith r.symbol "USDT" = true) ∧
    (∀ ts : List BitgetRawTicker,
      (bitgetRecords ts).length ≤ 100 ∧
      sortedByVolume (bitgetRecords ts) ∧
      ∀ r ∈ bitgetRecords ts, jsEndsWith r.symbol "USDT" = true) ∧
    (∀ (tokens : List String) (ts : List BinanceRawTicker),
      (alphaRecords tokens ts).length ≤ 100 ∧
      sortedByVolume (alphaRecords tokens ts) ∧
      ∀ r ∈ alphaRecords tokens ts, (alphaSymbolSet tokens).contains r.symbol = true) ∧
    (∀ ts : List UpbitRawTicker,
      (upbitRecords ts).length ≤ 100 ∧
      sortedByVolume (upbitRecords ts) ∧
      ∀ r ∈ upbitRecords ts, ∃ t ∈ ts, t.market ≠ "KRW-USDT" ∧
        r = upbitConv (upbitRate ts) t) := by
  refine ⟨fun active ts => ⟨rankTop100_length_le _, rankTop100_sorted _, ?_⟩,
    fun ts => ⟨rankTop100_length_le _, rankTop100_sorted _, ?_⟩,
    fun tokens ts => ⟨rankTop100_length_le _, rankTop100_sorted _, ?_⟩,
    fun ts => ⟨rankTop100_length_le _, rankTop100_sorted _, ?_⟩⟩
  · intro r hr
    have hm := rankTop100_mem hr
    simp only [List.mem_map, List.mem_filter] at hm
    obtain ⟨t, ⟨_, hp⟩, hconv⟩ := hm
    have hend : jsEndsWith t.symbol "USDT" = true := by
      simp only [binanceFilter, Bool.and_eq_true] at hp
      exact hp.1
    simpa [← hconv, convBinance] using hend
  · intro r hr
    have hm := rankTop100_mem hr
    simp only [List.mem_map, List.mem_filter] at hm
    obtain ⟨t, ⟨_, hp⟩, hconv⟩ := hm
    simpa [← hconv, convBitget] using hp
  · intro r hr
    have hm := rankTop100_mem hr
    simp only [List.mem_map, List.mem_filter] at hm
    obtain ⟨t, ⟨_, hp⟩, hconv⟩ := hm
    simpa [← hconv, convBinance] using hp
  · intro r hr
    have hm := rankTop100_mem hr
    simp only [List.mem_map, List.mem_filter] at hm
    obtain ⟨t, ⟨ht, hp⟩, hconv⟩ := hm
    refine ⟨t, ht, ?_, hconv.symm⟩
    simpa using hp

/-- Witness for C2 at a concrete input: on a two-ticker Binance response,
the record with the larger volume is returned (ranked) and carries the
`USDT` suffix. -/
theorem c2_adapter_records_ranked_witness :
    (⟨"BTCUSDT", none, 1, 2, 30⟩ : TickerRecord) ∈
      binanceFuturesRecords none
        [⟨"ETHUSDT", 5, 6, 7⟩, ⟨"BTCUSDT", 1, 2, 30⟩] ∧
    jsEndsWith "BTCUSDT" "USDT" = true := by
  refine ⟨by decide, ?_⟩
  exact (c2_adapter_records_ranked.1 none
    [⟨"ETHUSDT", 5, 6, 7⟩, ⟨"BTCUSDT", 1, 2, 30⟩]).2.2
    ⟨"BTCUSDT", none, 1, 2, 30⟩ (by decide)

/-- The unit cached and served per source:
`{ data: sorted, timestamp: Date.now() }`. -/
structure FetchResult where
  data : List TickerRecord
  timestamp : Int
deriving Repr, DecidableEq

/-- One value of a snapshot's rankings object:
`{ rank: index + 1, volume: item.quoteVolume }`. -/
structure RankEntry where
  rank : Nat
  volume : Rat
deriving Repr, DecidableEq

/-- One stored snapshot:
`{ time: timeLabel, timestamp: Date.now(), rankings }`. -/
structure Snapshot where
  time : String
  timestamp : Int
  rankings : List (String × RankEntry)
deriving Repr, DecidableEq

def MAX_SNAPSHOTS : Nat := 6

/-- `rankings[item.symbol] = v` on a JS object, as an insertion-ordered
association list: update in place when the key is present, append otherwise. -/
def objSet (m : List (String × RankEntry)) (k : String) (v : RankEntry) :
    List (String × RankEntry) :=
  if m.any (fun p => p.1 == k) then
    m.map (fun p => if p.1 == k then (k, v) else p)
  else m ++ [(k, v)]

/-- The `data.data.forEach((item, index) => ...)` loop of `takeSnapshot`,
carrying the rankings object and the current index. -/
def buildRankingsGo (m : List (String × RankEntry)) (idx : Nat) :
    List TickerRecord → List (String × RankEntry)
  | [] => m
  | r :: rs => buildRankingsGo (objSet m r.symbol ⟨idx + 1, r.quoteVolume⟩) (idx + 1) rs

/-- The rankings object built by `takeSnapshot` from the captured records. -/
def buildRankings (records : List TickerRecord) : List (String × RankEntry) :=
  buildRankingsGo [] 0 records

/-- `while (store.length > MAX_SNAPSHOTS) store.shift();`. -/
def evictOldest (l : List Snapshot) : List Snapshot :=
  if _h : l.length > MAX_SNAPSHOTS then evictOldest l.tail else l
termination_by l.length
decreasing_by
  cases l with
  | nil => simp [MAX_SNAPSHOTS] at _h
  | cons a l => simp

/-- The snapshot pushed by `takeSnapshot`; the JST minute label and the
`Date.now()` reading are passed in as parameters. -/
def mkSnapshot (d : FetchResult) (label : String) (now : Int) : Snapshot :=
  { time := label, timestamp := now, rankings := buildRankings d.data }

/-- `takeSnapshot(exchangeId, data)` acting on one source's history slot:
a null result or an empty record list returns at once
(`if (!data?.data?.length) return`), otherwise the new snapshot is pushed
and the store is trimmed to `MAX_SNAPSHOTS` from the front. -/
def takeSnapshotStep (store : List Snapshot) (data : Option FetchResult)
    (label : String) (now : Int) : List Snapshot :=
  match data with
  | none => store
  | some d =>
    if d.data.isEmpty then store
    else evictOldest (store ++ [mkSnapshot d label now])

/-- A sequence of `takeSnapshot` calls on one source, oldest first, starting
from the absent (empty) history slot. -/
def takeSnapshotRuns (inputs : List (Option FetchResult × String × Int)) : List Snapshot :=
  inputs.foldl (fun h i => takeSnapshotStep h i.1 i.2.1 i.2.2) []

lemma evictOldest_length (l : List Snapshot) :
    (evictOldest l).length = min l.length MAX_SNAPSHOTS := by
  induction l using evictOldest.induct with
  | case1 l h ih =>
    rw [evictOldest, dif_pos h, ih]
    cases l with
    | nil => simp [MAX_SNAPSHOTS] at h
    | cons a t =>
      simp only [List.length_cons, MAX_SNAPSHOTS] at h
      simp only [List.tail_cons, List.length_cons, MAX_SNAPSHOTS]
      omega
  | case2 l h =>
    rw [evictOldest, dif_neg h]
    simp only [Nat.not_lt, MAX_SNAPSHOTS] at h
    simp only [MAX_SNAPSHOTS]
    omega

lemma evictOldest_mem {s : Snapshot} {l : List Snapshot}
    (h : s ∈ evictOldest l) : s ∈ l := by
  induction l using evictOldest.induct with
  | case1 l hl ih =>
    rw [evictOldest] at h
    simp only [hl, dif_pos] at h
    exact List.mem_of_mem_tail (ih h)
  | case2 l hl =>
    rw [evictOldest] at h
    simpa [hl] using h

lemma takeSnapshotStep_length_le (store : List Snapshot)
    (data : Option FetchResult) (label : String) (now : Int)
    (h : store.length ≤ MAX_SNAPSHOTS) :
    (takeSnapshotStep store data label now).length ≤ MAX_SNAPSHOTS := by
  cases data with
  | none => exact h
  | some d =>
    simp only [takeSnapshotStep]
    split
    · exact h
    · rw [evictOldest_length]
      omega

/-- Claim C3: the per-source snapshot history built by any sequence of
`takeSnapshot` calls never exceeds `MAX_SNAPSHOTS` (6); and appending a
snapshot to a history already at the bound removes exactly the oldest
entry, keeps the rest in order, and puts the new snapshot last. -/
theorem c3_snapshot_history_fifo :
    (∀ inputs : List (Option FetchResult × String × Int),
      (takeSnapshotRuns inputs).length ≤ MAX_SNAPSHOTS) ∧
    (∀ (store : List Snapshot) (d : FetchResult) (label : String) (now : Int),
      store.length = MAX_SNAPSHOTS → d.data ≠ [] →
      takeSnapshotStep store (some d) label now =
        store.tail ++ [mkSnapshot d label now]) := by
  constructor
  · intro inputs
    suffices hgen : ∀ (h : List Snapshot), h.length ≤ MAX_SNAPSHOTS →
        (inputs.foldl (fun h i => takeSnapshotStep h i.1 i.2.1 i.2.2) h).length ≤
          MAX_SNAPSHOTS by
      exact hgen [] (by simp [MAX_SNAPSHOTS])
    induction inputs with
    | nil => intro h hh; simpa using hh
    | cons i rest ih =>
      intro h hh
      exact ih _ (takeSnapshotStep_length_le h i.1 i.2.1 i.2.2 hh)
  · intro store d label now hlen hne
    simp only [takeSnapshotStep]
    rw [if_neg (by simpa [List.isEmpty_iff] using hne)]
    cases store with
    | nil => simp [MAX_SNAPSHOTS] at hlen
    | cons a t =>
      have hlen6 : t.length + 1 = 6 := by
        simpa [MAX_SNAPSHOTS] using hlen
      have h7 : (a :: t ++ [mkSnapshot d label now]).length > MAX_SNAPSHOTS := by
        simp only [List.cons_append, List.length_append, List.length_cons,
          List.length_nil, MAX_SNAPSHOTS]
        omega
      rw [evictOldest, dif_pos h7, List.cons_append, List.tail_cons, List.tail_cons]
      have h6 : ¬ (t ++ [mkSnapshot d label now]).length > MAX_SNAPSHOTS := by
        simp only [List.length_append, List.length_cons, List.length_nil,
          MAX_SNAPSHOTS]
        omega
      rw [evictOldest, dif_neg h6]

/-- Witness for C3 at a concrete input: a full six-snapshot history evicts
exactly its oldest entry when a seventh snapshot is taken. -/
theorem c3_snapshot_history_fifo_witness :
    takeSnapshotStep
        [⟨"10:00", 0, [("A", ⟨1, 5⟩)]⟩, ⟨"11:00", 1, [("A", ⟨1, 5⟩)]⟩,
         ⟨"12:00", 2, [("A", ⟨1, 5⟩)]⟩, ⟨"13:00", 3, [("A", ⟨1, 5⟩)]⟩,
         ⟨"14:00", 4, [("A", ⟨1, 5⟩)]⟩, ⟨"15:00", 5, [("A", ⟨1, 5⟩)]⟩]
        (some ⟨[⟨"A", none, 1, 2, 5⟩], 6⟩) "16:00" 6 =
      [⟨"11:00", 1, [("A", ⟨1, 5⟩)]⟩, ⟨"12:00", 2, [("A", ⟨1, 5⟩)]⟩,
       ⟨"13:00", 3, [("A", ⟨1, 5⟩)]⟩, ⟨"14:00", 4, [("A", ⟨1, 5⟩)]⟩,
       ⟨"15:00", 5, [("A", ⟨1, 5⟩)]⟩,
       ⟨"16:00", 6, [("A", ⟨1, 5⟩)]⟩] := by
  rw [c3_snapshot_history_fifo.2 _ _ _ _ (by decide) (by decide)]
  decide

lemma objSet_length_le (m : List (String × RankEntry)) (k : String) (v : RankEntry) :
    m.length ≤ (objSet m k v).length := by
  unfold objSet
  split <;> simp

lemma buildRankingsGo_length_le (rs : List TickerRecord) :
    ∀ (m : List (String × RankEntry)) (idx : Nat),
      m.length ≤ (buildRankingsGo m idx rs).length := by
  induction rs with
  | nil =>
    intro m idx
    simp [buildRankingsGo]
  | cons r rs ih =>
    intro m idx
    simp only [buildRankingsGo]
    exact le_trans (objSet_length_le m r.symbol ⟨idx + 1, r.quoteVolume⟩) (ih _ _)

lemma buildRankings_ne_nil {records : List TickerRecord} (h : records ≠ []) :
    buildRankings records ≠ [] := by
  cases records with
  | nil => exact absurd rfl h
  | cons r rs =>
    have h1 : (1:Nat) ≤ (buildRankings (r :: rs)).length := by
      have h0 : (objSet [] r.symbol ⟨0 + 1, r.quoteVolume⟩).length = 1 := by
        simp [objSet]
      calc (1:Nat) = (objSet [] r.symbol ⟨0 + 1, r.quoteVolume⟩).length := h0.symm
        _ ≤ (buildRankingsGo (objSet [] r.symbol ⟨0 + 1, r.quoteVolume⟩) (0 + 1) rs).length :=
            buildRankingsGo_length_le rs _ _
        _ = (buildRankings (r :: rs)).length := rfl
    exact List.ne_nil_of_length_pos h1

lemma takeSnapshotStep_rankings_ne_nil (store : List Snapshot)
    (data : Option FetchResult) (label : String) (now : Int)
    (h : ∀ s ∈ store, s.rankings ≠ []) :
    ∀ s ∈ takeSnapshotStep store data label now, s.rankings ≠ [] := by
  cases data with
  | none => exact h
  | some d =>
    simp only [takeSnapshotStep]
    split
    · exact h
    · rename_i hne
      intro s hs
      rcases List.mem_append.1 (evictOldest_mem hs) with hs | hs
      · exact h s hs
      · have hsd : s = mkSnapshot d label now := by simpa using hs
        subst hsd
        exact buildRankings_ne_nil (by simpa [List.isEmpty_iff] using hne)

/-- Claim C10: calling `takeSnapshot` with a null result or with an empty
record list leaves the history slot unchanged, and consequently every
snapshot ever stored holds at least one ranking entry. -/
theorem c10_takeSnapshot_empty_noop :
    (∀ (store : List Snapshot) (label : String) (now : Int),
      takeSnapshotStep store none label now = store) ∧
    (∀ (store : List Snapshot) (d : FetchResult) (label : String) (now : Int),
      d.data = [] → takeSnapshotStep store (some d) label now = store) ∧
    (∀ inputs : List (Option FetchResult × String × Int),
      ∀ s ∈ takeSnapshotRuns inputs, s.rankings ≠ []) := by
  refine ⟨fun store label now => rfl,
    fun store d label now hd => by simp [takeSnapshotStep, hd], ?_⟩
  intro inputs
  suffices hgen : ∀ h : List Snapshot, (∀ s ∈ h, s.rankings ≠ []) →
      ∀ s ∈ inputs.foldl (fun h i => takeSnapshotStep h i.1 i.2.1 i.2.2) h,
        s.rankings ≠ [] by
    exact hgen [] (by simp)
  induction inputs with
  | nil =>
    intro h hh
    simpa using hh
  | cons i rest ih =>
    intro h hh
    exact ih _ (takeSnapshotStep_rankings_ne_nil h i.1 i.2.1 i.2.2 hh)

/-- Witness for C10 at a concrete input: an empty fetch result leaves a
one-snapshot history untouched. -/
theorem c10_takeSnapshot_empty_noop_witness :
    takeSnapshotStep [⟨"10:00", 0, [("A", ⟨1, 5⟩)]⟩] (some ⟨[], 3⟩) "11:00" 3 =
      [⟨"10:00", 0, [("A", ⟨1, 5⟩)]⟩] :=
  c10_takeSnapshot_empty_noop.2.1 _ _ _ _ rfl

/-- The ranking list `takeSnapshot` is expected to produce when symbols are
pairwise distinct: the record at position `i` (0-based, counting from
`idx`) is ranked `idx + i + 1`. -/
def rankList (idx : Nat) : List TickerRecord → List (String × RankEntry)
  | [] => []
  | r :: rs => (r.symbol, ⟨idx + 1, r.quoteVolume⟩) :: rankList (idx + 1) rs

lemma objSet_of_not_mem (m : List (String × RankEntry)) (k : String)
    (v : RankEntry) (h : k ∉ m.map Prod.fst) : objSet m k v = m ++ [(k, v)] := by
  unfold objSet
  rw [if_neg]
  intro hc
  simp only [List.any_eq_true, beq_iff_eq] at hc
  obtain ⟨p, hp, he⟩ := hc
  exact h (List.mem_map.2 ⟨p, hp, he⟩)

lemma buildRankingsGo_append (rs : List TickerRecord) :
    ∀ (m : List (String × RankEntry)) (idx : Nat),
      (∀ r ∈ rs, r.symbol ∉ m.map Prod.fst) →
      ((rs.map fun r => r.symbol).Nodup) →
      buildRankingsGo m idx rs = m ++ rankList idx rs := by
  induction rs with
  | nil =>
    intro m idx _ _
    simp [buildRankingsGo, rankList]
  | cons r rs ih =>
    intro m idx hmem hnd
    simp only [List.map_cons, List.nodup_cons] at hnd
    simp only [buildRankingsGo]
    rw [objSet_of_not_mem m r.symbol _ (hmem r (List.mem_cons_self _ _))]
    have hmem2 : ∀ r' ∈ rs,
        r'.symbol ∉ (m ++ [(r.symbol, (⟨idx + 1, r.quoteVolume⟩ : RankEntry))]).map
          Prod.fst := by
      intro r' hr'
      simp only [List.map_append, List.mem_append, List.map_cons, List.map_nil,
        List.mem_singleton, not_or]
      refine ⟨hmem r' (List.mem_cons_of_mem _ hr'), ?_⟩
      intro hequ
      exact hnd.1 (hequ ▸ List.mem_map.2 ⟨r', hr', rfl⟩)
    rw [ih (m ++ [(r.symbol, (⟨idx + 1, r.quoteVolume⟩ : RankEntry))]) (idx + 1)
      hmem2 hnd.2]
    simp [rankList]

lemma rankList_map_rank (rs : List TickerRecord) :
    ∀ idx : Nat, (rankList idx rs).map (fun p => p.2.rank) =
      List.range' (idx + 1) rs.length := by
  induction rs with
  | nil =>
    intro idx
    simp [rankList]
  | cons r rs ih =>
    intro idx
    simp only [rankList, List.map_cons, List.length_cons, List.range'_succ]
    rw [ih (idx + 1)]

/-- Claim C4: when the captured records carry pairwise-distinct symbols, the
rankings object of the stored snapshot lists exactly the records in their
given (already-sorted) order, the i-th record getting rank i + 1, so the
ranks form the dense sequence 1..N with no gaps or duplicates. -/
theorem c4_snapshot_ranks_dense (records : List TickerRecord)
    (h : ((records.map fun r => r.symbol).Nodup)) :
    buildRankings records = rankList 0 records ∧
    (buildRankings records).map (fun p => p.2.rank) =
      List.range' 1 records.length := by
  have he : buildRankings records = rankList 0 records := by
    have hb := buildRankingsGo_append records [] 0 (by simp) h
    simpa [buildRankings] using hb
  refine ⟨he, ?_⟩
  rw [he]
  simpa using rankList_map_rank records 0

/-- Witness for C4 at a concrete input: two distinct symbols receive the
dense ranks 1, 2. -/
theorem c4_snapshot_ranks_dense_witness :
    (([⟨"BTCUSDT", none, 1, 2, 30⟩, ⟨"ETHUSDT", none, 3, 4, 7⟩] :
        List TickerRecord).map (fun r => r.symbol)).Nodup ∧
    (buildRankings [⟨"BTCUSDT", none, 1, 2, 30⟩, ⟨"ETHUSDT", none, 3, 4, 7⟩]).map
        (fun p => p.2.rank) = List.range' 1 2 :=
  ⟨by decide, (c4_snapshot_ranks_dense _ (by decide)).2⟩

/-- The state of one `DataCache` instance. -/
structure DataCacheState (α : Type) where
  data : Option α
  lastFetchTime : Int
  duration : Int
deriving Repr, DecidableEq

/-- `isValid() { return this.data && Date.now() - this.lastFetchTime < this.duration }`.
Every value this program stores through `set` is an object or `true`, both
truthy, so JS truthiness of `this.data` coincides with presence. -/
def DataCacheState.isValid (c : DataCacheState α) (now : Int) : Bool :=
  c.data.isSome && decide (now - c.lastFetchTime < c.duration)

/-- `set(data) { this.data = data; this.lastFetchTime = Date.now() }`. -/
def DataCacheState.set (c : DataCacheState α) (v : α) (now : Int) : DataCacheState α :=
  { c with data := some v, lastFetchTime := now }

/-- `get() { return this.data }`. -/
def DataCacheState.get (c : DataCacheState α) : Option α := c.data

/-- One symbol entry of the Binance `/fapi/v1/exchangeInfo` response. -/
structure BinanceSymbolInfo where
  symbol : String
  status : String
deriving Repr, DecidableEq

/-- The module-level state touched by the Binance futures adapter:
`binanceFuturesCache`, `binanceExchangeInfoCache` (which stores `true`)
and the variable `activeSymbolsSet` (null before the first success). -/
structure BinanceState where
  futuresCache : DataCacheState FetchResult
  exchangeInfoCache : DataCacheState Bool
  activeSymbolsSet : Option (List String)
deriving Repr, DecidableEq

/-- `fetchBinanceActiveSymbols()`: serve the stored set while the 30-minute
cache is valid; on a successful refresh store the `TRADING` + `USDT`
filtered set and mark the cache; on failure return the previous set
(possibly null) unchanged. -/
def fetchBinanceActiveSymbols (st : BinanceState) (now : Int)
    (o : Nat → FetchOutcome (List BinanceSymbolInfo)) :
    Option (List String) × BinanceState :=
  if st.exchangeInfoCache.isValid now then (st.activeSymbolsSet, st)
  else
    match (fetchWithRetry o 3).2 with
    | .ok symbols =>
      let sset := (symbols.filter (fun s => s.status == "TRADING" &&
        jsEndsWith s.symbol "USDT")).map (fun s => s.symbol)
      (some sset,
        { st with
            activeSymbolsSet := some sset
            exchangeInfoCache := st.exchangeInfoCache.set true now })
    | .error _ => (st.activeSymbolsSet, st)

/-- `fetchBinanceFuturesTop100()` as a state-passing function of the call
instant and the per-attempt outcomes of the two upstream requests. -/
def fetchBinanceFuturesTop100 (st : BinanceState) (now : Int)
    (auxO : Nat → FetchOutcome (List BinanceSymbolInfo))
    (tickO : Nat → FetchOutcome (List BinanceRawTicker)) :
    Except JsError FetchResult × BinanceState :=
  if st.futuresCache.isValid now then
    match st.futuresCache.get with
    | some r => (.ok r, st)
    | none => (.error .network, st)
  else
    let (tradingSymbols, st1) := fetchBinanceActiveSymbols st now auxO
    match (fetchWithRetry tickO 3).2 with
    | .ok tickers =>
      let result : FetchResult :=
        { data := binanceFuturesRecords tradingSymbols tickers, timestamp := now }
      (.ok result, { st1 with futuresCache := st1.futuresCache.set result now })
    | .error e =>
      match st1.futuresCache.get with
      | some r => (.ok r, st1)
      | none => (.error e, st1)

/-- The module-level state of the Bitget spot adapter: only `bitgetCache`. -/
structure BitgetState where
  cache : DataCacheState FetchResult
deriving Repr, DecidableEq

/-- `fetchBitgetSpotTop100()` as a state-passing function. -/
def fetchBitgetSpotTop100 (st : BitgetState) (now : Int)
    (tickO : Nat → FetchOutcome (List BitgetRawTicker)) :
    Except JsError FetchResult × BitgetState :=
  if st.cache.isValid now then
    match st.cache.get with
    | some r => (.ok r, st)
    | none => (.error .network, st)
  else
    match (fetchWithRetry tickO 3).2 with
    | .ok tickers =>
      let result : FetchResult := { data := bitgetRecords tickers, timestamp := now }
      (.ok result, { st with cache := st.cache.set result now })
    | .error e =>
      match st.cache.get with
      | some r => (.ok r, st)
      | none => (.error e, st)

/-- The module-level state of the Upbit spot adapter: `upbitCache`,
`upbitMarketsCache` (which stores `true`) and the variable
`upbitMarketsList` (null before the first success). -/
structure UpbitState where
  cache : DataCacheState FetchResult
  marketsCache : DataCacheState Bool
  marketsList : Option (List String)
deriving Repr, DecidableEq

/-- `fetchUpbitMarkets()`: while the markets cache is valid and a list is
present (a JS array is truthy even when empty) serve the stored list; a
successful fetch keeps the `KRW-` markets; a failure returns
`upbitMarketsList || []` unchanged. -/
def fetchUpbitMarkets (st : UpbitState) (now : Int)
    (o : Nat → FetchOutcome (List String)) : List String × UpbitState :=
  if st.marketsCache.isValid now && st.marketsList.isSome then
    (st.marketsList.getD [], st)
  else
    match (fetchWithRetry o 3).2 with
    | .ok ms =>
      let l := ms.filter (fun m => jsStartsWith m "KRW-")
      (l, { st with
              marketsList := some l
              marketsCache := st.marketsCache.set true now })
    | .error _ => (st.marketsList.getD [], st)

/-- `fetchUpbitSpotTop100()` as a state-passing function.  An empty market
list raises `new Error("マーケット一覧が取得できません")`, which the
adapter's own catch turns into the stale-cache fallback. -/
def fetchUpbitSpotTop100 (st : UpbitState) (now : Int)
    (mktO : Nat → FetchOutcome (List String))
    (tickO : Nat → FetchOutcome (List UpbitRawTicker)) :
    Except JsError FetchResult × UpbitState :=
  if st.cache.isValid now then
    match st.cache.get with
    | some r => (.ok r, st)
    | none => (.error .network, st)
  else
    let (markets, st1) := fetchUpbitMarkets st now mktO
    if markets.isEmpty then
      match st1.cache.get with
      | some r => (.ok r, st1)
      | none => (.error (.appError "マーケット一覧が取得できません"), st1)
    else
      match (fetchWithRetry tickO 3).2 with
      | .ok tickers =>
        let result : FetchResult := { data := upbitRecords tickers, timestamp := now }
        (.ok result, { st1 with cache := st1.cache.set result now })
      | .error e =>
        match st1.cache.get with
        | some r => (.ok r, st1)
        | none => (.error e, st1)

/-- The module-level state of the Binance Alpha adapter: `alphaCache`,
`alphaListCache` (which stores `true`) and the variable `alphaTokenList`. -/
structure AlphaState where
  cache : DataCacheState FetchResult
  listCache : DataCacheState Bool
  tokenList : Option (List String)
deriving Repr, DecidableEq

/-- `fetchAlphaTokenList()`: cache-guarded fetch of the alpha token symbol
list; a failure returns `alphaTokenList || []` unchanged. -/
def fetchAlphaTokenList (st : AlphaState) (now : Int)
    (o : Nat → FetchOutcome (List String)) : List String × AlphaState :=
  if st.listCache.isValid now && st.tokenList.isSome then
    (st.tokenList.getD [], st)
  else
    match (fetchWithRetry o 3).2 with
    | .ok tokens =>
      (tokens, { st with
                   tokenList := some tokens
                   listCache := st.listCache.set true now })
    | .error _ => (st.tokenList.getD [], st)

/-- `fetchBinanceAlphaTop100()` as a state-passing function.  An empty token
list raises `new Error("Alphaトークンリストが取得できません")`, which the
adapter's own catch turns into the stale-cache fallback. -/
def fetchBinanceAlphaTop100 (st : AlphaState) (now : Int)
    (listO : Nat → FetchOutcome (List String))
    (tickO : Nat → FetchOutcome (List BinanceRawTicker)) :
    Except JsError FetchResult × AlphaState :=
  if st.cache.isValid now then
    match st.cache.get with
    | some r => (.ok r, st)
    | none => (.error .network, st)
  else
    let (alphaTokens, st1) := fetchAlphaTokenList st now listO
    if alphaTokens.isEmpty then
      match st1.cache.get with
      | some r => (.ok r, st1)
      | none => (.error (.appError "Alphaトークンリストが取得できません"), st1)
    else
      match (fetchWithRetry tickO 3).2 with
      | .ok tickers =>
        let result : FetchResult :=
          { data := alphaRecords alphaTokens tickers, timestamp := now }
        (.ok result, { st1 with cache := st1.cache.set result now })
      | .error e =>
        match st1.cache.get with
        | some r => (.ok r, st1)
        | none => (.error e, st1)

lemma fetchBinanceActiveSymbols_futuresCache (st : BinanceState) (now : Int)
    (o : Nat → FetchOutcome (List BinanceSymbolInfo)) :
    (fetchBinanceActiveSymbols st now o).2.futuresCache = st.futuresCache := by
  unfold fetchBinanceActiveSymbols
  split
  · rfl
  · cases (fetchWithRetry o 3).2 <;> rfl

lemma fetchBinanceActiveSymbols_of_error (st : BinanceState) (now : Int)
    (o : Nat → FetchOutcome (List BinanceSymbolInfo)) (e : JsError)
    (h : (fetchWithRetry o 3).2 = .error e) :
    fetchBinanceActiveSymbols st now o = (st.activeSymbolsSet, st) := by
  unfold fetchBinanceActiveSymbols
  split
  · rfl
  · rw [h]

/-- Claim C7: `isValid()` holds iff a value is stored and
`now - lastFetchTime < duration`; within the validity window after a `set`
the fetcher answers with the identical cached result and an unchanged state
whatever the network would do (so the upstream is not consulted); and when
the cache is not valid a successful upstream fetch produces a fresh result
stamped with the current instant. -/
theorem c7_cache_freshness :
    (∀ (α : Type) (c : DataCacheState α) (now : Int),
      c.isValid now = true ↔
        c.data.isSome = true ∧ now - c.lastFetchTime < c.duration) ∧
    (∀ (st : BinanceState) (r : FetchResult) (t1 t2 : Int)
        (auxO : Nat → FetchOutcome (List BinanceSymbolInfo))
        (tickO : Nat → FetchOutcome (List BinanceRawTicker)),
      t2 - t1 < st.futuresCache.duration →
      fetchBinanceFuturesTop100
          { st with futuresCache := st.futuresCache.set r t1 } t2 auxO tickO =
        (.ok r, { st with futuresCache := st.futuresCache.set r t1 })) ∧
    (∀ (st : BinanceState) (now : Int)
        (auxO : Nat → FetchOutcome (List BinanceSymbolInfo))
        (tickO : Nat → FetchOutcome (List BinanceRawTicker))
        (ts : List BinanceRawTicker),
      st.futuresCache.isValid now = false →
      (fetchWithRetry tickO 3).2 = .ok ts →
      (fetchBinanceFuturesTop100 st now auxO tickO).1 =
        .ok { data := binanceFuturesRecords (fetchBinanceActiveSymbols st now auxO).1 ts,
              timestamp := now }) := by
  refine ⟨?_, ?_, ?_⟩
  · intro α c now
    simp [DataCacheState.isValid, Bool.and_eq_true, decide_eq_true_eq]
  · intro st r t1 t2 auxO tickO h
    have hv : (DataCacheState.set st.futuresCache r t1).isValid t2 = true := by
      simp [DataCacheState.isValid, DataCacheState.set, h]
    simp only [fetchBinanceFuturesTop100, hv, if_true]
    rfl
  · intro st now auxO tickO ts hv hok
    rcases hp : fetchBinanceActiveSymbols st now auxO with ⟨active, st1⟩
    simp [fetchBinanceFuturesTop100, hv, hp, hok]

/-- Witness for C7: applying the freshness theorem to a freshly set cache at
a concrete instant serves the cached result unchanged. -/
theorem c7_cache_freshness_witness :
    fetchBinanceFuturesTop100
        { futuresCache := DataCacheState.set ⟨none, 0, 60000⟩ ⟨[], 5⟩ 5
          exchangeInfoCache := ⟨none, 0, 1800000⟩
          activeSymbolsSet := none } 10
        (fun _ => .failure .network) (fun _ => .failure .network) =
      (.ok ⟨[], 5⟩,
        { futuresCache := DataCacheState.set ⟨none, 0, 60000⟩ ⟨[], 5⟩ 5
          exchangeInfoCache := ⟨none, 0, 1800000⟩
          activeSymbolsSet := none }) ∧
    (fetchBinanceFuturesTop100
        { futuresCache := ⟨none, 0, 60000⟩
          exchangeInfoCache := ⟨none, 0, 1800000⟩
          activeSymbolsSet := none } 0
        (fun _ => .failure .network)
        (fun _ => .success [⟨"BTCUSDT", 1, 2, 3⟩])).1 =
      .ok { data := binanceFuturesRecords
              (fetchBinanceActiveSymbols
                { futuresCache := ⟨none, 0, 60000⟩
                  exchangeInfoCache := ⟨none, 0, 1800000⟩
                  activeSymbolsSet := none } 0 (fun _ => .failure .network)).1
              [⟨"BTCUSDT", 1, 2, 3⟩],
            timestamp := 0 } := by
  constructor
  · exact c7_cache_freshness.2.1
      { futuresCache := ⟨none, 0, 60000⟩
        exchangeInfoCache := ⟨none, 0, 1800000⟩
        activeSymbolsSet := none } ⟨[], 5⟩ 5 10 _ _ (by decide)
  · exact c7_cache_freshness.2.2
      { futuresCache := ⟨none, 0, 60000⟩
        exchangeInfoCache := ⟨none, 0, 1800000⟩
        activeSymbolsSet := none } 0 _ _ [⟨"BTCUSDT", 1, 2, 3⟩]
      (by decide) (by decide)

lemma fetchUpbitMarkets_cache (st : UpbitState) (now : Int)
    (o : Nat → FetchOutcome (List String)) :
    (fetchUpbitMarkets st now o).2.cache = st.cache := by
  unfold fetchUpbitMarkets
  split
  · rfl
  · cases (fetchWithRetry o 3).2 <;> rfl

lemma fetchAlphaTokenList_cache (st : AlphaState) (now : Int)
    (o : Nat → FetchOutcome (List String)) :
    (fetchAlphaTokenList st now o).2.cache = st.cache := by
  unfold fetchAlphaTokenList
  split
  · rfl
  · cases (fetchWithRetry o 3).2 <;> rfl

/-- Claim C6: for every source adapter, when the primary ticker fetch fails
after exhausting retries the adapter serves the previously cached fetch
result unchanged when one exists and propagates the error otherwise; in
both cases the fetch-result cache slot keeps exactly its prior contents.
For Upbit and Binance Alpha the primary fetch is reached whenever the
auxiliary list in hand is non-empty. -/
theorem c6_stale_fallback :
    (∀ (st : BinanceState) (now : Int)
        (auxO : Nat → FetchOutcome (List BinanceSymbolInfo))
        (tickO : Nat → FetchOutcome (List BinanceRawTicker)) (e : JsError),
      st.futuresCache.isValid now = false →
      (fetchWithRetry tickO 3).2 = .error e →
      (fetchBinanceFuturesTop100 st now auxO tickO).2.futuresCache =
          st.futuresCache ∧
      (∀ r, st.futuresCache.data = some r →
        (fetchBinanceFuturesTop100 st now auxO tickO).1 = .ok r) ∧
      (st.futuresCache.data = none →
        (fetchBinanceFuturesTop100 st now auxO tickO).1 = .error e)) ∧
    (∀ (st : BitgetState) (now : Int)
        (tickO : Nat → FetchOutcome (List BitgetRawTicker)) (e : JsError),
      st.cache.isValid now = false →
      (fetchWithRetry tickO 3).2 = .error e →
      (fetchBitgetSpotTop100 st now tickO).2 = st ∧
      (∀ r, st.cache.data = some r →
        (fetchBitgetSpotTop100 st now tickO).1 = .ok r) ∧
      (st.cache.data = none →
        (fetchBitgetSpotTop100 st now tickO).1 = .error e)) ∧
    (∀ (st : UpbitState) (now : Int)
        (mktO : Nat → FetchOutcome (List String))
        (tickO : Nat → FetchOutcome (List UpbitRawTicker)) (e : JsError),
      st.cache.isValid now = false →
      ((fetchUpbitMarkets st now mktO).1).isEmpty = false →
      (fetchWithRetry tickO 3).2 = .error e →
      (fetchUpbitSpotTop100 st now mktO tickO).2.cache = st.cache ∧
      (∀ r, st.cache.data = some r →
        (fetchUpbitSpotTop100 st now mktO tickO).1 = .ok r) ∧
      (st.cache.data = none →
        (fetchUpbitSpotTop100 st now mktO tickO).1 = .error e)) ∧
    (∀ (st : AlphaState) (now : Int)
        (listO : Nat → FetchOutcome (List String))
        (tickO : Nat → FetchOutcome (List BinanceRawTicker)) (e : JsError),
      st.cache.isValid now = false →
      ((fetchAlphaTokenList st now listO).1).isEmpty = false →
      (fetchWithRetry tickO 3).2 = .error e →
      (fetchBinanceAlphaTop100 st now listO tickO).2.cache = st.cache ∧
      (∀ r, st.cache.data = some r →
        (fetchBinanceAlphaTop100 st now listO tickO).1 = .ok r) ∧
      (st.cache.data = none →
        (fetchBinanceAlphaTop100 st now listO tickO).1 = .error e)) := by
  refine ⟨?_, ?_, ?_, ?_⟩
  · intro st now auxO tickO e hv herr
    rcases hp : fetchBinanceActiveSymbols st now auxO with ⟨active, st1⟩
    have hfc : st1.futuresCache = st.futuresCache := by
      have := fetchBinanceActiveSymbols_futuresCache st now auxO
      rw [hp] at this
      exact this
    refine ⟨?_, ?_, ?_⟩
    · simp only [fetchBinanceFuturesTop100, hv, Bool.false_eq_true, if_false,
        hp, herr]
      cases hd : st.futuresCache.data with
      | some r => simp [DataCacheState.get, hfc, hd]
      | none => simp [DataCacheState.get, hfc, hd]
    · intro r hr
      simp [fetchBinanceFuturesTop100, hv, hp, herr, DataCacheState.get, hfc, hr]
    · intro hr
      simp [fetchBinanceFuturesTop100, hv, hp, herr, DataCacheState.get, hfc, hr]
  · intro st now tickO e hv herr
    refine ⟨?_, ?_, ?_⟩
    · simp only [fetchBitgetSpotTop100, hv, Bool.false_eq_true, if_false, herr]
      cases hd : st.cache.data with
      | some r => simp [DataCacheState.get, hd]
      | none => simp [DataCacheState.get, hd]
    · intro r hr
      simp [fetchBitgetSpotTop100, hv, herr, DataCacheState.get, hr]
    · intro hr
      simp [fetchBitgetSpotTop100, hv, herr, DataCacheState.get, hr]
  · intro st now mktO tickO e hv hne herr
    rcases hp : fetchUpbitMarkets st now mktO with ⟨markets, st1⟩
    have hc : st1.cache = st.cache := by
      have := fetchUpbitMarkets_cache st now mktO
      rw [hp] at this
      exact this
    replace hne : markets.isEmpty = false := by
      rw [hp] at hne
      exact hne
    refine ⟨?_, ?_, ?_⟩
    · simp only [fetchUpbitSpotTop100, hv, Bool.false_eq_true, if_false, hp,
        hne, herr]
      cases hd : st.cache.data with
      | some r => simp [DataCacheState.get, hc, hd]
      | none => simp [DataCacheState.get, hc, hd]
    · intro r hr
      simp [fetchUpbitSpotTop100, hv, hp, hne, herr, DataCacheState.get, hc, hr]
    · intro hr
      simp [fetchUpbitSpotTop100, hv, hp, hne, herr, DataCacheState.get, hc, hr]
  · intro st now listO tickO e hv hne herr
    rcases hp : fetchAlphaTokenList st now listO with ⟨tokens, st1⟩
    have hc : st1.cache = st.cache := by
      have := fetchAlphaTokenList_cache st now listO
      rw [hp] at this
      exact this
    replace hne : tokens.isEmpty = false := by
      rw [hp] at hne
      exact hne
    refine ⟨?_, ?_, ?_⟩
    · simp only [fetchBinanceAlphaTop100, hv, Bool.false_eq_true, if_false, hp,
        hne, herr]
      cases hd : st.cache.data with
      | some r => simp [DataCacheState.get, hc, hd]
      | none => simp [DataCacheState.get, hc, hd]
    · intro r hr
      simp [fetchBinanceAlphaTop100, hv, hp, hne, herr, DataCacheState.get, hc, hr]
    · intro hr
      simp [fetchBinanceAlphaTop100, hv, hp, hne, herr, DataCacheState.get, hc, hr]

/-- Witness for C6: with an expired cached result and a ticker endpoint that
times out on every attempt, the Bitget adapter serves the stale result and
leaves its state untouched, and the Upbit adapter (holding a remembered
market list) does the same with its cache slot unchanged. -/
theorem c6_stale_fallback_witness :
    (fetchBitgetSpotTop100 ⟨⟨some ⟨[], 0⟩, 0, 60000⟩⟩ 70000
        (fun _ => .failure .network)).2 = ⟨⟨some ⟨[], 0⟩, 0, 60000⟩⟩ ∧
    (fetchBitgetSpotTop100 ⟨⟨some ⟨[], 0⟩, 0, 60000⟩⟩ 70000
        (fun _ => .failure .network)).1 = .ok ⟨[], 0⟩ ∧
    (fetchUpbitSpotTop100
        ⟨⟨some ⟨[], 0⟩, 0, 60000⟩, ⟨some true, 0, 1800000⟩, some ["KRW-BTC"]⟩
        70000 (fun _ => .failure .network)
        (fun _ => .failure .network)).2.cache = ⟨some ⟨[], 0⟩, 0, 60000⟩ ∧
    (fetchUpbitSpotTop100
        ⟨⟨some ⟨[], 0⟩, 0, 60000⟩, ⟨some true, 0, 1800000⟩, some ["KRW-BTC"]⟩
        70000 (fun _ => .failure .network)
        (fun _ => .failure .network)).1 = .ok ⟨[], 0⟩ := by
  have h := c6_stale_fallback.2.1 ⟨⟨some ⟨[], 0⟩, 0, 60000⟩⟩ 70000
    (fun _ => .failure .network) .network (by decide) (by decide)
  have hu := c6_stale_fallback.2.2.1
    ⟨⟨some ⟨[], 0⟩, 0, 60000⟩, ⟨some true, 0, 1800000⟩, some ["KRW-BTC"]⟩
    70000 (fun _ => .failure .network) (fun _ => .failure .network) .network
    (by decide) (by decide) (by decide)
  exact ⟨h.1, h.2.1 ⟨[], 0⟩ rfl, hu.1, hu.2.1 ⟨[], 0⟩ rfl⟩

/-- The module state of the Upbit adapter at process start: empty caches,
no previously fetched markets list. -/
def upbitInitState : UpbitState :=
  { cache := ⟨none, 0, 60000⟩
    marketsCache := ⟨none, 0, 30 * 60 * 1000⟩
    marketsList := none }

/-- Counterexample to claim C5 as stated: at process start, a failing
auxiliary markets fetch makes the whole Upbit adapter fail with the
markets error even though every primary ticker fetch attempt would have
succeeded — the adapter does not proceed without filtering. -/
theorem c5_aux_failure_counterexample :
    (fetchUpbitSpotTop100 upbitInitState 0 (fun _ => .failure .network)
        (fun _ => .success [⟨"KRW-BTC", 100, 1000, 1⟩])).1 =
      .error (.appError "マーケット一覧が取得できません") := by decide

lemma fetchUpbitMarkets_of_error (st : UpbitState) (now : Int)
    (o : Nat → FetchOutcome (List String)) (e : JsError)
    (h : (fetchWithRetry o 3).2 = .error e) :
    fetchUpbitMarkets st now o = (st.marketsList.getD [], st) := by
  unfold fetchUpbitMarkets
  split
  · rename_i hc
    simp only [Bool.and_eq_true, Option.isSome_iff_exists] at hc
    obtain ⟨_, ⟨l, hl⟩⟩ := hc
    rw [hl]
  · rw [h]

lemma fetchAlphaTokenList_of_error (st : AlphaState) (now : Int)
    (o : Nat → FetchOutcome (List String)) (e : JsError)
    (h : (fetchWithRetry o 3).2 = .error e) :
    fetchAlphaTokenList st now o = (st.tokenList.getD [], st) := by
  unfold fetchAlphaTokenList
  split
  · rename_i hc
    simp only [Bool.and_eq_true, Option.isSome_iff_exists] at hc
    obtain ⟨_, ⟨l, hl⟩⟩ := hc
    rw [hl]
  · rw [h]

/-- Claim C5, amended: on an auxiliary-fetch failure every adapter falls
back to the last successful auxiliary value; the Binance futures adapter
then proceeds without allow-list filtering when no such value exists,
while the Upbit and Binance Alpha adapters proceed only when the fallback
list is non-empty and otherwise fail (subject to the stale-cache
fallback) instead of proceeding without filtering. -/
theorem c5_aux_fallback_amended :
    (∀ (st : BinanceState) (now : Int)
        (auxO : Nat → FetchOutcome (List BinanceSymbolInfo)) (e : JsError),
      (fetchWithRetry auxO 3).2 = .error e →
      fetchBinanceActiveSymbols st now auxO = (st.activeSymbolsSet, st)) ∧
    (∀ (st : BinanceState) (now : Int)
        (auxO : Nat → FetchOutcome (List BinanceSymbolInfo))
        (tickO : Nat → FetchOutcome (List BinanceRawTicker))
        (e : JsError) (ts : List BinanceRawTicker),
      (fetchWithRetry auxO 3).2 = .error e →
      st.futuresCache.isValid now = false →
      (fetchWithRetry tickO 3).2 = .ok ts →
      (fetchBinanceFuturesTop100 st now auxO tickO).1 =
        .ok { data := binanceFuturesRecords st.activeSymbolsSet ts,
              timestamp := now }) ∧
    (∀ t : BinanceRawTicker, binanceFilter none t = jsEndsWith t.symbol "USDT") ∧
    (∀ (st : UpbitState) (now : Int)
        (mktO : Nat → FetchOutcome (List String)) (e : JsError),
      (fetchWithRetry mktO 3).2 = .error e →
      fetchUpbitMarkets st now mktO = (st.marketsList.getD [], st)) ∧
    (∀ (st : UpbitState) (now : Int)
        (mktO : Nat → FetchOutcome (List String))
        (tickO : Nat → FetchOutcome (List UpbitRawTicker))
        (e : JsError) (L : List String) (ts : List UpbitRawTicker),
      (fetchWithRetry mktO 3).2 = .error e →
      st.cache.isValid now = false →
      st.marketsList = some L → L ≠ [] →
      (fetchWithRetry tickO 3).2 = .ok ts →
      (fetchUpbitSpotTop100 st now mktO tickO).1 =
        .ok { data := upbitRecords ts, timestamp := now }) ∧
    (∀ (st : UpbitState) (now : Int)
        (mktO : Nat → FetchOutcome (List String))
        (tickO : Nat → FetchOutcome (List UpbitRawTicker)) (e : JsError),
      (fetchWithRetry mktO 3).2 = .error e →
      st.marketsList = none → st.cache.data = none →
      (fetchUpbitSpotTop100 st now mktO tickO).1 =
        .error (.appError "マーケット一覧が取得できません")) ∧
    (∀ (st : AlphaState) (now : Int)
        (listO : Nat → FetchOutcome (List String)) (e : JsError),
      (fetchWithRetry listO 3).2 = .error e →
      fetchAlphaTokenList st now listO = (st.tokenList.getD [], st)) ∧
    (∀ (st : AlphaState) (now : Int)
        (listO : Nat → FetchOutcome (List String))
        (tickO : Nat → FetchOutcome (List BinanceRawTicker)) (e : JsError),
      (fetchWithRetry listO 3).2 = .error e →
      st.tokenList = none → st.cache.data = none →
      (fetchBinanceAlphaTop100 st now listO tickO).1 =
        .error (.appError "Alphaトークンリストが取得できません")) := by
  refine ⟨?_, ?_, ?_, ?_, ?_, ?_, ?_, ?_⟩
  · intro st now auxO e h
    unfold fetchBinanceActiveSymbols
    split
    · rfl
    · rw [h]
  · intro st now auxO tickO e ts haux hv hok
    have h1 : fetchBinanceActiveSymbols st now auxO = (st.activeSymbolsSet, st) := by
      unfold fetchBinanceActiveSymbols
      split
      · rfl
      · rw [haux]
    simp [fetchBinanceFuturesTop100, hv, h1, hok]
  · intro t
    simp [binanceFilter]
  · exact fetchUpbitMarkets_of_error
  · intro st now mktO tickO e L ts hm hv hL hLne hok
    have h1 := fetchUpbitMarkets_of_error st now mktO e hm
    have hne : ((st.marketsList.getD []).isEmpty) = false := by
      rw [hL]
      simpa [List.isEmpty_iff] using hLne
    simp [fetchUpbitSpotTop100, hv, h1, hne, hok]
  · intro st now mktO tickO e hm hL hc
    have h1 := fetchUpbitMarkets_of_error st now mktO e hm
    have hv : st.cache.isValid now = false := by
      simp [DataCacheState.isValid, hc]
    simp [fetchUpbitSpotTop100, hv, h1, hL, DataCacheState.get, hc]
  · exact fetchAlphaTokenList_of_error
  · intro st now listO tickO e hm hL hc
    have h1 := fetchAlphaTokenList_of_error st now listO e hm
    have hv : st.cache.isValid now = false := by
      simp [DataCacheState.isValid, hc]
    simp [fetchBinanceAlphaTop100, hv, h1, hL, DataCacheState.get, hc]

/-- Witness for the amended C5: a Binance futures run whose exchangeInfo
request fails on every attempt still succeeds from the ticker response
alone, and an Upbit run with a remembered market list also survives its
failing auxiliary fetch. -/
theorem c5_aux_fallback_amended_witness :
    (fetchBinanceFuturesTop100
        { futuresCache := ⟨none, 0, 60000⟩
          exchangeInfoCache := ⟨none, 0, 1800000⟩
          activeSymbolsSet := none } 0
        (fun _ => .failure .network)
        (fun _ => .success [⟨"BTCUSDT", 1, 2, 3⟩])).1 =
      .ok { data := binanceFuturesRecords none [⟨"BTCUSDT", 1, 2, 3⟩],
            timestamp := 0 } ∧
    (fetchUpbitSpotTop100
        { cache := ⟨none, 0, 60000⟩
          marketsCache := ⟨none, 0, 1800000⟩
          marketsList := some ["KRW-BTC"] } 0
        (fun _ => .failure .network)
        (fun _ => .success [⟨"KRW-BTC", 100, 1000, 1⟩])).1 =
      .ok { data := upbitRecords [⟨"KRW-BTC", 100, 1000, 1⟩], timestamp := 0 } := by
  constructor
  · exact c5_aux_fallback_amended.2.1
      { futuresCache := ⟨none, 0, 60000⟩
        exchangeInfoCache := ⟨none, 0, 1800000⟩
        activeSymbolsSet := none } 0 _ _ .network [⟨"BTCUSDT", 1, 2, 3⟩]
      (by decide) (by decide) (by decide)
  · exact c5_aux_fallback_amended.2.2.2.2.1
      { cache := ⟨none, 0, 60000⟩
        marketsCache := ⟨none, 0, 1800000⟩
        marketsList := some ["KRW-BTC"] } 0 _ _ .network ["KRW-BTC"]
      [⟨"KRW-BTC", 100, 1000, 1⟩]
      (by decide) (by decide) rfl (by decide) (by decide)

/-- One source's externally observable state: the adapter's module state
and that source's slot of `snapshotStore`. -/
structure SourceWorld (σ : Type) where
  state : σ
  history : List Snapshot
deriving Repr

/-- Claim C8: when the Upbit ticker batch contains the `KRW-USDT` conversion
ticker with positive trade price P, every produced record carries its raw
KRW 24h volume divided by P (the code multiplies by the rate `1 / P`) and
its raw KRW trade price divided by P; when no `KRW-USDT` ticker is present
both conversions use the hardcoded fallback rate `1 / 1450`. -/
theorem c8_upbit_conversion (ts : List UpbitRawTicker) :
    (∀ t0 : UpbitRawTicker,
      ts.find? (fun t => t.market == "KRW-USDT") = some t0 →
      0 < t0.trade_price →
      ∀ r ∈ upbitRecords ts, ∃ t ∈ ts, t.market ≠ "KRW-USDT" ∧
        r.quoteVolume = t.acc_trade_price_24h / t0.trade_price ∧
        r.lastPrice = t.trade_price / t0.trade_price) ∧
    (ts.find? (fun t => t.market == "KRW-USDT") = none →
      ∀ r ∈ upbitRecords ts, ∃ t ∈ ts, t.market ≠ "KRW-USDT" ∧
        r.quoteVolume = t.acc_trade_price_24h * (1 / 1450) ∧
        r.lastPrice = t.trade_price * (1 / 1450)) := by
  constructor
  · intro t0 hf hpos r hr
    have hrate : upbitRate ts = 1 / t0.trade_price := by
      simp only [upbitRate, hf]
      rw [if_neg (ne_of_gt hpos)]
    simp only [upbitRecords] at hr
    have hm := rankTop100_mem hr
    simp only [List.mem_map, List.mem_filter] at hm
    obtain ⟨t, ⟨ht, hp⟩, hconv⟩ := hm
    refine ⟨t, ht, by simpa using hp, ?_, ?_⟩
    · rw [← hconv]
      simp [upbitConv, hrate, mul_one_div, div_eq_mul_inv]
    · rw [← hconv]
      simp [upbitConv, hrate, mul_one_div, div_eq_mul_inv]
  · intro hf r hr
    have hrate : upbitRate ts = 1 / 1450 := by
      simp [upbitRate, hf]
    simp only [upbitRecords] at hr
    have hm := rankTop100_mem hr
    simp only [List.mem_map, List.mem_filter] at hm
    obtain ⟨t, ⟨ht, hp⟩, hconv⟩ := hm
    refine ⟨t, ht, by simpa using hp, ?_, ?_⟩
    · rw [← hconv]
      simp [upbitConv, hrate]
    · rw [← hconv]
      simp [upbitConv, hrate]

/-- Witness for C8: in a two-ticker batch whose `KRW-USDT` ticker trades at
1450 KRW, the converted `KRW-BTC` record divides its KRW volume and price
by 1450. -/
theorem c8_upbit_conversion_witness :
    (0:Rat) < 1450 ∧
    ∃ t ∈ [(⟨"KRW-USDT", 1450, 0, 0⟩ : UpbitRawTicker),
           ⟨"KRW-BTC", 145000, 1450000, 1/100⟩],
      t.market ≠ "KRW-USDT" ∧
      (upbitConv (upbitRate [⟨"KRW-USDT", 1450, 0, 0⟩,
          ⟨"KRW-BTC", 145000, 1450000, 1/100⟩])
        ⟨"KRW-BTC", 145000, 1450000, 1/100⟩).quoteVolume =
          t.acc_trade_price_24h / 1450 ∧
      (upbitConv (upbitRate [⟨"KRW-USDT", 1450, 0, 0⟩,
          ⟨"KRW-BTC", 145000, 1450000, 1/100⟩])
        ⟨"KRW-BTC", 145000, 1450000, 1/100⟩).lastPrice =
          t.trade_price / 1450 := by
  refine ⟨by decide, ?_⟩
  exact (c8_upbit_conversion [⟨"KRW-USDT", 1450, 0, 0⟩,
      ⟨"KRW-BTC", 145000, 1450000, 1/100⟩]).1
    ⟨"KRW-USDT", 1450, 0, 0⟩ (by decide) (by decide)
    (upbitConv (upbitRate [⟨"KRW-USDT", 1450, 0, 0⟩,
        ⟨"KRW-BTC", 145000, 1450000, 1/100⟩])
      ⟨"KRW-BTC", 145000, 1450000, 1/100⟩)
    (by set_option maxRecDepth 4000 in with_unfolding_all decide)

/-- The generic request handler `createExchangeHandler(exchangeId, fetcher)`
acting on one source's world: await the fetcher (which may lazily refresh
that source's freshness cache, transforming the adapter state) and answer
with the result spread together with `getSnapshots(exchangeId)`, or a
500-style error payload; the snapshot store is only read. -/
def createExchangeHandler {σ : Type}
    (fetcher : σ → Except JsError FetchResult × σ) (w : SourceWorld σ) :
    Except JsError (FetchResult × List Snapshot) × SourceWorld σ :=
  match fetcher w.state with
  | (.ok r, st1) => (.ok (r, w.history), ⟨st1, w.history⟩)
  | (.error e, st1) => (.error e, ⟨st1, w.history⟩)

/-- One source's step of the scheduled `takeAllSnapshots()` pass (run once
at startup and at every top of the hour): await the fetcher and pass the
result to `takeSnapshot`; a failure is caught, logged and leaves the
history unchanged. -/
def scheduledRefreshStep {σ : Type}
    (fetcher : σ → Except JsError FetchResult × σ) (w : SourceWorld σ)
    (label : String) (now : Int) : SourceWorld σ :=
  match fetcher w.state with
  | (.ok r, st1) => ⟨st1, takeSnapshotStep w.history (some r) label now⟩
  | (.error _, st1) => ⟨st1, w.history⟩

/-- Claim C9: for every source (any fetcher over any adapter state type),
handling a query never changes that source's snapshot history — whatever
the freshness cache does during the call — while the scheduled refresh
pass is the one that records a snapshot of the fetched result. -/
theorem c9_query_never_snapshots :
    (∀ (σ : Type) (fetcher : σ → Except JsError FetchResult × σ)
        (w : SourceWorld σ),
      (createExchangeHandler fetcher w).2.history = w.history) ∧
    (∀ (σ : Type) (fetcher : σ → Except JsError FetchResult × σ)
        (w : SourceWorld σ) (label : String) (now : Int)
        (r : FetchResult) (st1 : σ),
      fetcher w.state = (.ok r, st1) →
      (scheduledRefreshStep fetcher w label now).history =
        takeSnapshotStep w.history (some r) label now) := by
  constructor
  · intro σ fetcher w
    unfold createExchangeHandler
    rcases fetcher w.state with ⟨res, st1⟩
    cases res <;> rfl
  · intro σ fetcher w label now r st1 hp
    unfold scheduledRefreshStep
    rw [hp]

/-- Witness for C9: with a warm freshness cache, querying the Binance
futures source leaves a one-snapshot history unchanged, while the
scheduled pass on the same world records the cached result. -/
theorem c9_query_never_snapshots_witness :
    (createExchangeHandler
        (fun st => fetchBinanceFuturesTop100 st 0
          (fun _ => .failure .network) (fun _ => .failure .network))
        ⟨{ futuresCache := ⟨some ⟨[⟨"BTCUSDT", none, 1, 2, 3⟩], 0⟩, 0, 60000⟩
           exchangeInfoCache := ⟨none, 0, 1800000⟩
           activeSymbolsSet := none },
         [⟨"09:00", 0, [("BTCUSDT", ⟨1, 3⟩)]⟩]⟩).2.history =
      [⟨"09:00", 0, [("BTCUSDT", ⟨1, 3⟩)]⟩] ∧
    (scheduledRefreshStep
        (fun st => fetchBinanceFuturesTop100 st 0
          (fun _ => .failure .network) (fun _ => .failure .network))
        ⟨{ futuresCache := ⟨some ⟨[⟨"BTCUSDT", none, 1, 2, 3⟩], 0⟩, 0, 60000⟩
           exchangeInfoCache := ⟨none, 0, 1800000⟩
           activeSymbolsSet := none },
         [⟨"09:00", 0, [("BTCUSDT", ⟨1, 3⟩)]⟩]⟩ "10:00" 0).history =
      takeSnapshotStep [⟨"09:00", 0, [("BTCUSDT", ⟨1, 3⟩)]⟩]
        (some ⟨[⟨"BTCUSDT", none, 1, 2, 3⟩], 0⟩) "10:00" 0 := by
  constructor
  · exact c9_query_never_snapshots.1 BinanceState _
      ⟨{ futuresCache := ⟨some ⟨[⟨"BTCUSDT", none, 1, 2, 3⟩], 0⟩, 0, 60000⟩
         exchangeInfoCache := ⟨none, 0, 1800000⟩
         activeSymbolsSet := none },
       [⟨"09:00", 0, [("BTCUSDT", ⟨1, 3⟩)]⟩]⟩
  · exact c9_query_never_snapshots.2 BinanceState _
      ⟨{ futuresCache := ⟨some ⟨[⟨"BTCUSDT", none, 1, 2, 3⟩], 0⟩, 0, 60000⟩
         exchangeInfoCache := ⟨none, 0, 1800000⟩
         activeSymbolsSet := none },
       [⟨"09:00", 0, [("BTCUSDT", ⟨1, 3⟩)]⟩]⟩ "10:00" 0
      ⟨[⟨"BTCUSDT", none, 1, 2, 3⟩], 0⟩
      { futuresCache := ⟨some ⟨[⟨"BTCUSDT", none, 1, 2, 3⟩], 0⟩, 0, 60000⟩
        exchangeInfoCache := ⟨none, 0, 1800000⟩
        activeSymbolsSet := none }
      (by decide)
